import Mathlib

/-!
Verification of the chatbot response-cache server (Redis-backed Express
service) of the NASA ISS dashboard repository.

The embedding below models, from the source:
  * the query normalizer inside the cache-key builder,
  * the token-set (Jaccard) similarity between two queries,
  * the REST handlers: put (POST /api/cache), get (GET /api/cache/:query),
    find-similar (POST /api/cache/similar), stats (GET /api/cache/stats),
    clear-all (DELETE /api/cache/clear), list-all (GET /api/cache/all),
  * the statistics read-modify-write helper.

Modelling conventions:
  * JS strings are Lean strings worked on as lists of characters.  The
    regex classes of the source are modelled on their exact definitions:
    the whitespace class of /\s/ and the word class /\w/ = [A-Za-z0-9_].
    String.prototype.toLowerCase is modelled on the ASCII range (the only
    range the properties below depend on).
  * String.prototype.split(/\s+/) is modelled faithfully, including the
    empty fragments it yields before a leading separator and after a
    trailing separator, and the singleton list holding the empty string
    it yields on the empty input.
  * The MD5 digest comes from an external crypto library, so the hash is
    a parameter (an arbitrary function String to String): every claim in
    scope is independent of which deterministic digest is used.
  * The Redis store is a pair of an association list holding the cache
    entries (keys of the form "chatbot:" ++ digest) and an optional
    statistics record (stored under "chatbot:stats").  KEYS "chatbot:*"
    therefore enumerates the entry keys plus the stats key when present;
    digests are hex strings, never the literal "stats", so the two parts
    never collide.  Each write records the TTL the source passes to
    setEx; expiry itself is native to the store and not modelled.
  * JSON serialization round-trips structured data unchanged, so values
    are stored structurally.  The find-similar and list-all scans of the
    source skip the stats record via their per-key try/catch (reading a
    field of it is undefined and throws); the model scans entries only.
  * Number arithmetic is modelled in the rationals.
-/

namespace NasaCache

/-- The character class of the JS regex /\s/ (also the set trimmed by
String.prototype.trim): ASCII whitespace plus the Unicode space
separators, line separators and the BOM. -/
def isJsSpace (c : Char) : Bool :=
  (9 ≤ c.toNat && c.toNat ≤ 13) || c.toNat == 32 ||
  c.toNat == 0xa0 || c.toNat == 0x1680 ||
  (0x2000 ≤ c.toNat && c.toNat ≤ 0x200a) ||
  c.toNat == 0x2028 || c.toNat == 0x2029 || c.toNat == 0x202f ||
  c.toNat == 0x205f || c.toNat == 0x3000 || c.toNat == 0xfeff

/-- The character class of the JS regex /\w/: [A-Za-z0-9_]. -/
def isWordChar (c : Char) : Bool :=
  (97 ≤ c.toNat && c.toNat ≤ 122) || (65 ≤ c.toNat && c.toNat ≤ 90) ||
  (48 ≤ c.toNat && c.toNat ≤ 57) || c.toNat == 95

/-- String.prototype.toLowerCase, character-wise, on the ASCII range:
the letters A-Z (code points 65-90) move to a-z (97-122). -/
def lowerChar (c : Char) : Char :=
  if 65 ≤ c.toNat && c.toNat ≤ 90 then Char.ofNat (c.toNat + 32) else c

/-- toLowerCase over a character list. -/
def jsToLower (l : List Char) : List Char := l.map lowerChar

/-- Drop the leading run of JS whitespace. -/
def dropSpaces : List Char → List Char
  | [] => []
  | c :: cs => if isJsSpace c then dropSpaces cs else c :: cs

/-- String.prototype.trim: drop leading and trailing JS whitespace. -/
def jsTrimL (l : List Char) : List Char :=
  (dropSpaces ((dropSpaces l).reverse)).reverse

/-- The replace(/[^\w\s]/g, "") step: keep exactly the word characters
and the whitespace characters. -/
def stripNonWord (l : List Char) : List Char :=
  l.filter (fun c => isWordChar c || isJsSpace c)

/-- The replace(/\s+/g, " ") step: each maximal run of whitespace
characters becomes a single space (leading and trailing runs included:
they become a single space, they are not removed). -/
def collapseWS : List Char → List Char
  | [] => []
  | [c] => if isJsSpace c then [' '] else [c]
  | c :: d :: cs =>
      if isJsSpace c && isJsSpace d then collapseWS (d :: cs)
      else (if isJsSpace c then ' ' else c) :: collapseWS (d :: cs)

/-- The normalization pipeline inside generateCacheKey:
toLowerCase, then trim, then strip non-word non-space characters, then
collapse whitespace runs to single spaces. -/
def normalizeL (l : List Char) : List Char :=
  collapseWS (stripNonWord (jsTrimL (jsToLower l)))

/-- String-level wrapper of the normalization pipeline. -/
def normalizeQuery (s : String) : String := String.mk (normalizeL s.data)

/-- String-level wrapper of String.prototype.trim. -/
def jsTrim (s : String) : String := String.mk (jsTrimL s.data)

/-- generateCacheKey: the "chatbot:" namespace followed by the digest of
the normalized query.  The digest (MD5 in the source, from the external
crypto library) is the parameter hash. -/
def generateCacheKey (hash : String → String) (query : String) : String :=
  "chatbot:" ++ hash (normalizeQuery query)

/-- Prepend a character to the first fragment of a split result. -/
def consHead (c : Char) : List (List Char) → List (List Char)
  | [] => [[c]]
  | t :: ts => (c :: t) :: ts

/-- String.prototype.split(/\s+/): fragments between maximal whitespace
runs.  A leading run yields an empty first fragment, a trailing run an
empty last fragment, and the empty string yields the singleton list
holding the empty fragment (the regex never matches there). -/
def jsSplitWS : List Char → List (List Char)
  | [] => [[]]
  | [c] => if isJsSpace c then [[], []] else [[c]]
  | c :: d :: cs =>
      if isJsSpace c then
        if isJsSpace d then jsSplitWS (d :: cs)
        else [] :: jsSplitWS (d :: cs)
      else consHead c (jsSplitWS (d :: cs))

/-- The token list of a query: lowercase it, split on whitespace runs. -/
def tokenList (q : String) : List String :=
  (jsSplitWS (jsToLower q.data)).map (fun l => String.mk l)

/-- The token set of a query (new Set(...) collapses duplicates). -/
def tokens (q : String) : Finset String := (tokenList q).toFinset

/-- The exact rational i / u, built with the normalizing constructor of
the rationals so that concrete values compute; it agrees with field
division whenever u is nonzero (and the u = 0 case, where the source
would produce NaN, is proved unreachable below). -/
def natFrac (i u : Nat) : ℚ := mkRat (Int.ofNat i) u

/-- natFrac is the division of the casts. -/
theorem natFrac_eq_div (i u : Nat) : natFrac i u = (i : ℚ) / (u : ℚ) := by
  simp [natFrac, Rat.mkRat_eq_div]

/-- calculateSimilarity: the Jaccard index of the two token sets,
intersection size over union size. -/
def calculateSimilarity (query1 query2 : String) : ℚ :=
  natFrac (tokens query1 ∩ tokens query2).card (tokens query1 ∪ tokens query2).card

example : normalizeQuery "  WHAT is the ISS?!  " = "what is the iss" := by decide
example : normalizeQuery "! a" = " a" := by decide
example : normalizeQuery " a" = "a" := by decide
example : calculateSimilarity "" "" = 1 := by decide
example : calculateSimilarity "a b" "c d" = 0 := by decide
example : calculateSimilarity "a b c" "a b d" = mkRat 1 2 := by decide

/-- The metadata stored with a cache entry: the default fields the put
handler always fills, plus the arbitrary extra fields the caller's
metadata object spreads in. -/
structure Metadata where
  timestamp : Nat
  responseTime : Nat
  tokenCount : Nat
  apiVersion : String
  extra : List (String × String)
deriving DecidableEq, Repr

/-- The caller-supplied metadata object of a put request: each known
field may be absent, plus arbitrary extra fields. -/
structure MetaIn where
  timestamp : Option Nat := none
  responseTime : Option Nat := none
  tokenCount : Option Nat := none
  apiVersion : Option String := none
  extra : List (String × String) := []
deriving DecidableEq, Repr

/-- The metadata merge of the put handler: defaults (current time,
responseTime 0, tokenCount falling back to the response length, the
default API-version tag), each overridden by the caller's field when
present, since the caller's object is spread after the defaults. -/
def mergeMeta (now : Nat) (response : String) (m : MetaIn) : Metadata where
  timestamp := m.timestamp.getD now
  responseTime := m.responseTime.getD 0
  tokenCount := m.tokenCount.getD response.length
  apiVersion := m.apiVersion.getD "gemini-2.5-flash"
  extra := m.extra

/-- A stored cache entry, as built by the put handler and rewritten by
the get handler. -/
structure CacheData where
  query : String
  response : String
  metadata : Metadata
  hitCount : Nat
  lastAccessed : Nat
  createdAt : Nat
deriving DecidableEq, Repr

/-- The aggregate statistics record stored under "chatbot:stats". -/
structure StatsData where
  totalCached : Nat
  cacheHits : Nat
  cacheMisses : Nat
  hitRate : ℚ
  lastUpdated : Nat
deriving DecidableEq, Repr

/-- A value written with setEx: the payload together with the TTL in
seconds passed at that write. -/
structure StoredEntry where
  data : CacheData
  ttl : Nat
deriving DecidableEq, Repr

/-- The Redis store restricted to the "chatbot:*" namespace: the cache
entries as an association list keyed by cache key, and the optional
statistics record with the TTL of its last write. -/
structure Store where
  entries : List (String × StoredEntry)
  stats : Option (StatsData × Nat)
deriving DecidableEq, Repr

/-- The store before any write. -/
def emptyStore : Store := ⟨[], none⟩

/-- Redis GET on the entry namespace. -/
def getAssoc (k : String) : List (String × StoredEntry) → Option StoredEntry
  | [] => none
  | (k', v) :: t => if k' = k then some v else getAssoc k t

/-- Redis SET/setEx on the entry namespace: insert or overwrite,
keeping one value per key. -/
def setAssoc (k : String) (v : StoredEntry) (l : List (String × StoredEntry)) :
    List (String × StoredEntry) :=
  (k, v) :: l.filter (fun p => p.1 ≠ k)

/-- The statistics record the stats paths build when none is stored. -/
def defaultStats (now : Nat) : StatsData :=
  ⟨0, 0, 0, 0, now⟩

/-- The hit-rate formula (cacheHits / (cacheHits + cacheMisses)) * 100,
with the || 0 fallback that turns the 0/0 case into 0; the nonzero case
is the exact rational hits * 100 / (hits + misses). -/
def computeHitRate (hits misses : Nat) : ℚ :=
  if hits + misses = 0 then 0 else natFrac (hits * 100) (hits + misses)

/-- computeHitRate is the literal formula of the source. -/
theorem computeHitRate_eq (hits misses : Nat) :
    computeHitRate hits misses =
      if hits + misses = 0 then 0
      else ((hits : ℚ) / ((hits : ℚ) + (misses : ℚ))) * 100 := by
  rw [computeHitRate]
  rcases Nat.eq_zero_or_pos (hits + misses) with h | h
  · simp [h]
  · rw [if_neg (Nat.pos_iff_ne_zero.mp h), if_neg (Nat.pos_iff_ne_zero.mp h),
      natFrac_eq_div]
    push_cast
    rw [div_mul_eq_mul_div, mul_comm]

/-- The three events updateCacheStats distinguishes. -/
inductive StatsAction where
  | add
  | hit
  | miss
deriving DecidableEq, Repr

/-- updateCacheStats: read the stats record (or start from the zero
record), bump the counter of the event, stamp lastUpdated, recompute
hitRate from the two counters, write back with a 30-day TTL. -/
def updateCacheStats (action : StatsAction) (now : Nat) (st : Store) : Store :=
  let s0 : StatsData :=
    match st.stats with
    | some (s, _) => s
    | none => defaultStats now
  let s1 : StatsData :=
    match action with
    | .add => { s0 with totalCached := s0.totalCached + 1 }
    | .hit => { s0 with cacheHits := s0.cacheHits + 1 }
    | .miss => { s0 with cacheMisses := s0.cacheMisses + 1 }
  let s2 : StatsData :=
    { s1 with lastUpdated := now,
              hitRate := computeHitRate s1.cacheHits s1.cacheMisses }
  { st with stats := some (s2, 30 * 24 * 60 * 60) }

/-- Outcome of the put handler. -/
inductive PutResult where
  | badRequest
  | ok (cacheKey : String)
deriving DecidableEq, Repr

/-- POST /api/cache: reject when query or response is empty (the
falsy check of the source, with an absent field modelled as the empty
string); otherwise build the entry with hitCount 1, write it under its
cache key with a 7-day TTL, and record an add event in the stats. -/
def putHandler (hash : String → String) (now : Nat) (query response : String)
    (m : MetaIn) (st : Store) : PutResult × Store :=
  if query = "" ∨ response = "" then (.badRequest, st)
  else
    let cacheKey := generateCacheKey hash query
    let cacheData : CacheData :=
      { query := jsTrim query
        response := response
        metadata := mergeMeta now response m
        hitCount := 1
        lastAccessed := now
        createdAt := now }
    let st1 : Store :=
      { st with entries := setAssoc cacheKey ⟨cacheData, 7 * 24 * 60 * 60⟩ st.entries }
    (.ok cacheKey, updateCacheStats .add now st1)

/-- The payload of a found get response. -/
structure GetFound where
  response : String
  metadata : Metadata
  hitCount : Nat
  lastAccessed : Nat
deriving DecidableEq, Repr

/-- Outcome of the get handler. -/
inductive GetResult where
  | notFound
  | found (f : GetFound)
deriving DecidableEq, Repr

/-- GET /api/cache/:query: compute the cache key, read the entry.  On a
miss, record a miss event.  On a hit, bump hitCount, stamp
lastAccessed, rewrite the entry with a fresh 7-day TTL, record a hit
event, and answer with the updated entry. -/
def getHandler (hash : String → String) (now : Nat) (query : String)
    (st : Store) : GetResult × Store :=
  let cacheKey := generateCacheKey hash query
  match getAssoc cacheKey st.entries with
  | none => (.notFound, updateCacheStats .miss now st)
  | some e =>
      let d : CacheData :=
        { e.data with hitCount := e.data.hitCount + 1, lastAccessed := now }
      let st1 : Store :=
        { st with entries := setAssoc cacheKey ⟨d, 7 * 24 * 60 * 60⟩ st.entries }
      (.found ⟨d.response, d.metadata, d.hitCount, d.lastAccessed⟩,
       updateCacheStats .hit now st1)

/-- One entry of the match list of the find-similar handler. -/
structure SimilarMatch where
  similarity : ℚ
  response : String
  originalQuery : String
  metadata : Metadata
  hitCount : Nat
deriving DecidableEq, Repr

/-- Outcome of the find-similar handler. -/
inductive SimilarResult where
  | badRequest
  | ok (found : Bool) (matchList : List SimilarMatch)
deriving DecidableEq, Repr

/-- The comparator of results.sort((a, b) => b.similarity - a.similarity):
descending similarity.  Array.prototype.sort is a stable sort, modelled
by the stable insertion sort. -/
def simOrder (a b : SimilarMatch) : Prop := b.similarity ≤ a.similarity

instance : DecidableRel simOrder := fun a b =>
  Rat.instDecidableLe b.similarity a.similarity

/-- POST /api/cache/similar: reject an empty query; otherwise scan every
key of the namespace (the stats record, whose payload lacks the entry
fields, is skipped by the per-key catch of the source, so the scan
covers exactly the entries), keep the entries whose similarity to the
query reaches the threshold (0.7 when the body gives none), and sort
the matches by descending similarity. -/
def similarHandler (query : String) (threshold : Option ℚ) (st : Store) :
    SimilarResult :=
  if query = "" then .badRequest
  else
    let t := threshold.getD (7 / 10)
    let results : List SimilarMatch :=
      st.entries.filterMap (fun p =>
        let sim := calculateSimilarity query p.2.data.query
        if t ≤ sim then
          some ⟨sim, p.2.data.response, p.2.data.query,
                p.2.data.metadata, p.2.data.hitCount⟩
        else none)
    .ok (decide (0 < results.length)) (List.insertionSort simOrder results)

/-- GET /api/cache/stats: answer with the stored record, or with the
zero record when none is stored; the store is only read, never
written. -/
def statsHandler (now : Nat) (st : Store) : StatsData × Store :=
  match st.stats with
  | some (s, _) => (s, st)
  | none => (defaultStats now, st)

/-- DELETE /api/cache/clear: KEYS "chatbot:*" enumerates the entry keys
plus the stats key when the stats record exists; every one of them is
deleted (the second DEL of "chatbot:stats" is then a no-op) and the
count of enumerated keys is answered as cleared. -/
def clearHandler (st : Store) : Nat × Store :=
  let keyCount := st.entries.length + (match st.stats with
    | some _ => 1
    | none => 0)
  (keyCount, emptyStore)

/-- One line of the debug listing of the list-all handler: the response
is truncated to its first 100 characters with an ellipsis suffix. -/
structure ListItem where
  key : String
  query : String
  response : String
  metadata : Metadata
  hitCount : Nat
  lastAccessed : Nat
deriving DecidableEq, Repr

/-- The comparator of responses.sort((a, b) => b.lastAccessed - a.lastAccessed):
descending lastAccessed, again as a stable sort. -/
def accOrder (a b : ListItem) : Prop := b.lastAccessed ≤ a.lastAccessed

instance : DecidableRel accOrder := fun a b =>
  Nat.decLe b.lastAccessed a.lastAccessed

/-- GET /api/cache/all: scan the namespace (the stats record again
skipped by the per-key catch), build a summary per entry with the
truncated response preview, sort by descending lastAccessed, answer the
total and the lines. -/
def allHandler (st : Store) : Nat × List ListItem :=
  let responses : List ListItem :=
    st.entries.map (fun p =>
      ⟨p.1, p.2.data.query,
       String.mk (p.2.data.response.data.take 100) ++ "...",
       p.2.data.metadata, p.2.data.hitCount, p.2.data.lastAccessed⟩)
  let sorted := List.insertionSort accOrder responses
  (sorted.length, sorted)

/-- A sequence of stats events, each with the clock value at which it
reaches updateCacheStats. -/
def applyEvents (evs : List (StatsAction × Nat)) (st : Store) : Store :=
  evs.foldl (fun s e => updateCacheStats e.1 e.2 s) st

/-- Count of add events in a sequence. -/
def countAdds (evs : List (StatsAction × Nat)) : Nat :=
  (evs.filter (fun e => e.1 = StatsAction.add)).length

/-- Count of hit events in a sequence. -/
def countHits (evs : List (StatsAction × Nat)) : Nat :=
  (evs.filter (fun e => e.1 = StatsAction.hit)).length

/-- Count of miss events in a sequence. -/
def countMisses (evs : List (StatsAction × Nat)) : Nat :=
  (evs.filter (fun e => e.1 = StatsAction.miss)).length

/-! Basic store lemmas. -/

theorem getAssoc_setAssoc_self (k : String) (v : StoredEntry)
    (l : List (String × StoredEntry)) : getAssoc k (setAssoc k v l) = some v := by
  simp [getAssoc, setAssoc]

theorem updateCacheStats_entries (a : StatsAction) (now : Nat) (st : Store) :
    (updateCacheStats a now st).entries = st.entries := rfl

theorem putHandler_entries (hash : String → String) (n1 : Nat) (q1 r : String)
    (m : MetaIn) (st : Store) (hq : q1 ≠ "") (hr : r ≠ "") :
    (putHandler hash n1 q1 r m st).2.entries =
      setAssoc (generateCacheKey hash q1)
        ⟨⟨jsTrim q1, r, mergeMeta n1 r m, 1, n1, n1⟩, 7 * 24 * 60 * 60⟩
        st.entries := by
  unfold putHandler
  rw [if_neg (by simp [hq, hr])]
  rfl

theorem getHandler_found (hash : String → String) (now : Nat) (q : String)
    (st : Store) (e : StoredEntry)
    (h : getAssoc (generateCacheKey hash q) st.entries = some e) :
    getHandler hash now q st =
      (GetResult.found ⟨e.data.response, e.data.metadata, e.data.hitCount + 1, now⟩,
       updateCacheStats .hit now
         ⟨setAssoc (generateCacheKey hash q)
             ⟨⟨e.data.query, e.data.response, e.data.metadata, e.data.hitCount + 1,
               now, e.data.createdAt⟩, 7 * 24 * 60 * 60⟩ st.entries, st.stats⟩) := by
  simp only [getHandler, h]

/-- C1: queries that normalize identically share the cache key, and a
put under one of them followed by a get under the other finds the
stored response with hitCount 2 (1 set on write, incremented once on
the read) and lastAccessed stamped by the read. -/
theorem cacheKey_agrees_and_put_get_roundtrip
    (hash : String → String) (n1 n2 : Nat) (q1 q2 r : String) (m : MetaIn)
    (st : Store) (hq : q1 ≠ "") (hr : r ≠ "")
    (hnorm : normalizeQuery q1 = normalizeQuery q2) :
    generateCacheKey hash q1 = generateCacheKey hash q2 ∧
    (getHandler hash n2 q2 (putHandler hash n1 q1 r m st).2).1 =
      GetResult.found ⟨r, mergeMeta n1 r m, 2, n2⟩ := by
  have hkey : generateCacheKey hash q1 = generateCacheKey hash q2 := by
    unfold generateCacheKey
    rw [hnorm]
  refine ⟨hkey, ?_⟩
  rw [getHandler_found hash n2 q2 (putHandler hash n1 q1 r m st).2
      ⟨⟨jsTrim q1, r, mergeMeta n1 r m, 1, n1, n1⟩, 7 * 24 * 60 * 60⟩
      (by rw [← hkey, putHandler_entries hash n1 q1 r m st hq hr,
              getAssoc_setAssoc_self])]

/-- Witness for C1 at concrete inputs: the two queries differ in case
and edge whitespace only. -/
theorem cacheKey_agrees_and_put_get_roundtrip_witness :
    generateCacheKey (fun s => s) "Hi" = generateCacheKey (fun s => s) "  HI " ∧
    (getHandler (fun s => s) 9 "  HI "
        (putHandler (fun s => s) 5 "Hi" "yo" ⟨none, none, none, none, []⟩
          emptyStore).2).1 =
      GetResult.found ⟨"yo", mergeMeta 5 "yo" ⟨none, none, none, none, []⟩, 2, 9⟩ :=
  cacheKey_agrees_and_put_get_roundtrip (fun s => s) 5 9 "Hi" "  HI " "yo"
    ⟨none, none, none, none, []⟩ emptyStore (by decide) (by decide) (by decide)

/-- C8: a put with an empty (or absent, which the body parse yields as
empty) query or response is rejected with the caller error and the
store, entries and stats alike, is exactly the one before the call. -/
theorem put_missing_field_rejected_no_write
    (hash : String → String) (now : Nat) (query response : String) (m : MetaIn)
    (st : Store) (h : query = "" ∨ response = "") :
    putHandler hash now query response m st = (PutResult.badRequest, st) := by
  unfold putHandler
  rw [if_pos h]

/-- Witness for C8: empty query against a nonempty store. -/
theorem put_missing_field_rejected_no_write_witness :
    putHandler (fun s => s) 3 "" "yo" ⟨none, none, none, none, []⟩
        (putHandler (fun s => s) 5 "a" "b" ⟨none, none, none, none, []⟩
          emptyStore).2 =
      (PutResult.badRequest,
        (putHandler (fun s => s) 5 "a" "b" ⟨none, none, none, none, []⟩
          emptyStore).2) :=
  put_missing_field_rejected_no_write (fun s => s) 3 "" "yo"
    ⟨none, none, none, none, []⟩ _ (Or.inl rfl)

/-- C9: reading the statistics when no record is stored answers the
freshly initialized zero record and leaves the store untouched (the
zero record is not persisted). -/
theorem stats_read_absent_zero_record_no_write (now : Nat) (st : Store)
    (h : st.stats = none) :
    statsHandler now st = (defaultStats now, st) ∧
    defaultStats now =
      ⟨0, 0, 0, 0, now⟩ := by
  constructor
  · unfold statsHandler
    rw [h]
  · rfl

/-- Witness for C9 on the empty store. -/
theorem stats_read_absent_zero_record_no_write_witness :
    statsHandler 7 emptyStore = (defaultStats 7, emptyStore) ∧
    defaultStats 7 = ⟨0, 0, 0, 0, 7⟩ :=
  stats_read_absent_zero_record_no_write 7 emptyStore rfl

/-- C6: a hit of the get handler rewrites the entry under its key so
that query, response, metadata and createdAt are the stored ones,
hitCount is the stored one plus 1, lastAccessed is the read time, and
the rewrite carries the full 7-day TTL again. -/
theorem get_hit_rewrites_only_counters_and_resets_ttl
    (hash : String → String) (now : Nat) (q : String) (st : Store)
    (e : StoredEntry)
    (h : getAssoc (generateCacheKey hash q) st.entries = some e) :
    getAssoc (generateCacheKey hash q) (getHandler hash now q st).2.entries =
      some ⟨⟨e.data.query, e.data.response, e.data.metadata,
             e.data.hitCount + 1, now, e.data.createdAt⟩, 7 * 24 * 60 * 60⟩ := by
  rw [getHandler_found hash now q st e h]
  rw [updateCacheStats_entries]
  exact getAssoc_setAssoc_self _ _ _

/-- Witness for C6: a store holding one freshly put entry, read at a
later clock. -/
theorem get_hit_rewrites_only_counters_and_resets_ttl_witness :
    getAssoc (generateCacheKey (fun s => s) "hi")
        (getHandler (fun s => s) 9 "hi"
          (putHandler (fun s => s) 5 "hi" "yo" ⟨none, none, none, none, []⟩
            emptyStore).2).2.entries =
      some ⟨⟨"hi", "yo", ⟨5, 0, 2, "gemini-2.5-flash", []⟩, 1 + 1, 9, 5⟩,
            7 * 24 * 60 * 60⟩ :=
  get_hit_rewrites_only_counters_and_resets_ttl (fun s => s) 9 "hi"
    (putHandler (fun s => s) 5 "hi" "yo" ⟨none, none, none, none, []⟩
      emptyStore).2
    ⟨⟨"hi", "yo", ⟨5, 0, 2, "gemini-2.5-flash", []⟩, 1, 5, 5⟩, 7 * 24 * 60 * 60⟩
    (by decide)

/-- C7 (amended): the clear handler deletes everything and reports the
number of keys the namespace scan found, which is the number of cache
entries plus one for the stats record when it exists; clearing a store
with nothing in the namespace reports 0; afterwards the stats read
answers the zero record and the debug listing is empty. -/
theorem clearAll_resets_store_and_counts_namespace_keys (st : Store) (now : Nat) :
    (clearHandler st).1 =
      st.entries.length + (if st.stats.isSome then 1 else 0) ∧
    (clearHandler emptyStore).1 = 0 ∧
    (clearHandler st).2 = emptyStore ∧
    (statsHandler now (clearHandler st).2).1 = defaultStats now ∧
    (allHandler (clearHandler st).2).1 = 0 ∧
    (allHandler (clearHandler st).2).2 = [] := by
  refine ⟨?_, rfl, rfl, rfl, rfl, rfl⟩
  rcases st with ⟨ents, stats⟩
  rcases stats with _ | p <;> rfl

/-- Counterexample to C7 as stated: after a single put on the empty
store there is exactly one cache entry, but the clear handler reports 2
cleared, because the KEYS scan counts the stats record too. -/
theorem clearAll_count_not_entry_count_counterexample :
    ((putHandler (fun s => s) 5 "hi" "yo" ⟨none, none, none, none, []⟩
        emptyStore).2).entries.length = 1 ∧
    (clearHandler (putHandler (fun s => s) 5 "hi" "yo"
        ⟨none, none, none, none, []⟩ emptyStore).2).1 = 2 ∧
    (clearHandler (putHandler (fun s => s) 5 "hi" "yo"
        ⟨none, none, none, none, []⟩ emptyStore).2).1 ≠
      ((putHandler (fun s => s) 5 "hi" "yo" ⟨none, none, none, none, []⟩
        emptyStore).2).entries.length := by
  refine ⟨by decide, by decide, by decide⟩

/-! Statistics bookkeeping lemmas. -/

/-- The totalCached counter visible in the store, 0 when no record. -/
def totalOf (st : Store) : Nat :=
  match st.stats with
  | none => 0
  | some (s, _) => s.totalCached

/-- The cacheHits counter visible in the store, 0 when no record. -/
def hitsOf (st : Store) : Nat :=
  match st.stats with
  | none => 0
  | some (s, _) => s.cacheHits

/-- The cacheMisses counter visible in the store, 0 when no record. -/
def missesOf (st : Store) : Nat :=
  match st.stats with
  | none => 0
  | some (s, _) => s.cacheMisses

theorem totalOf_update (a : StatsAction) (now : Nat) (st : Store) :
    totalOf (updateCacheStats a now st) =
      totalOf st + (if a = StatsAction.add then 1 else 0) := by
  rcases st with ⟨ents, stats⟩
  cases a <;> rcases stats with _ | p <;> rfl

theorem hitsOf_update (a : StatsAction) (now : Nat) (st : Store) :
    hitsOf (updateCacheStats a now st) =
      hitsOf st + (if a = StatsAction.hit then 1 else 0) := by
  rcases st with ⟨ents, stats⟩
  cases a <;> rcases stats with _ | p <;> rfl

theorem missesOf_update (a : StatsAction) (now : Nat) (st : Store) :
    missesOf (updateCacheStats a now st) =
      missesOf st + (if a = StatsAction.miss then 1 else 0) := by
  rcases st with ⟨ents, stats⟩
  cases a <;> rcases stats with _ | p <;> rfl

theorem applyEvents_nil (st : Store) : applyEvents [] st = st := rfl

theorem applyEvents_cons (e : StatsAction × Nat) (rest : List (StatsAction × Nat))
    (st : Store) :
    applyEvents (e :: rest) st = applyEvents rest (updateCacheStats e.1 e.2 st) := rfl

theorem countAdds_cons (e : StatsAction × Nat) (rest : List (StatsAction × Nat)) :
    countAdds (e :: rest) =
      (if e.1 = StatsAction.add then 1 else 0) + countAdds rest := by
  rcases e with ⟨a, n⟩
  cases a <;> simp [countAdds, List.filter_cons, Nat.add_comm]

theorem countHits_cons (e : StatsAction × Nat) (rest : List (StatsAction × Nat)) :
    countHits (e :: rest) =
      (if e.1 = StatsAction.hit then 1 else 0) + countHits rest := by
  rcases e with ⟨a, n⟩
  cases a <;> simp [countHits, List.filter_cons, Nat.add_comm]

theorem countMisses_cons (e : StatsAction × Nat) (rest : List (StatsAction × Nat)) :
    countMisses (e :: rest) =
      (if e.1 = StatsAction.miss then 1 else 0) + countMisses rest := by
  rcases e with ⟨a, n⟩
  cases a <;> simp [countMisses, List.filter_cons, Nat.add_comm]

theorem totalOf_applyEvents (evs : List (StatsAction × Nat)) :
    ∀ st : Store, totalOf (applyEvents evs st) = totalOf st + countAdds evs := by
  induction evs with
  | nil => intro st; simp [applyEvents_nil, countAdds]
  | cons e rest ih =>
      intro st
      rw [applyEvents_cons, ih, totalOf_update, countAdds_cons]
      omega

theorem hitsOf_applyEvents (evs : List (StatsAction × Nat)) :
    ∀ st : Store, hitsOf (applyEvents evs st) = hitsOf st + countHits evs := by
  induction evs with
  | nil => intro st; simp [applyEvents_nil, countHits]
  | cons e rest ih =>
      intro st
      rw [applyEvents_cons, ih, hitsOf_update, countHits_cons]
      omega

theorem missesOf_applyEvents (evs : List (StatsAction × Nat)) :
    ∀ st : Store, missesOf (applyEvents evs st) = missesOf st + countMisses evs := by
  induction evs with
  | nil => intro st; simp [applyEvents_nil, countMisses]
  | cons e rest ih =>
      intro st
      rw [applyEvents_cons, ih, missesOf_update, countMisses_cons]
      omega

theorem updateCacheStats_consistent (a : StatsAction) (now : Nat) (st : Store)
    (s : StatsData) (t : Nat) (h : (updateCacheStats a now st).stats = some (s, t)) :
    s.hitRate = computeHitRate s.cacheHits s.cacheMisses := by
  rcases st with ⟨ents, stats⟩
  cases a <;> rcases stats with _ | p <;>
    (simp only [updateCacheStats, Option.some.injEq, Prod.mk.injEq] at h;
     rw [← h.1])

theorem applyEvents_consistent (evs : List (StatsAction × Nat)) :
    ∀ st : Store,
      (∀ s t, st.stats = some (s, t) →
        s.hitRate = computeHitRate s.cacheHits s.cacheMisses) →
      ∀ s t, (applyEvents evs st).stats = some (s, t) →
        s.hitRate = computeHitRate s.cacheHits s.cacheMisses := by
  induction evs with
  | nil => intro st hst s t h; exact hst s t h
  | cons e rest ih =>
      intro st hst s t h
      rw [applyEvents_cons] at h
      exact ih (updateCacheStats e.1 e.2 st)
        (fun s' t' h' => updateCacheStats_consistent e.1 e.2 st s' t' h') s t h

theorem applyEvents_stats_isSome (evs : List (StatsAction × Nat)) :
    ∀ st : Store, st.stats.isSome → (applyEvents evs st).stats.isSome := by
  induction evs with
  | nil => intro st h; exact h
  | cons e rest ih =>
      intro st _
      rw [applyEvents_cons]
      refine ih (updateCacheStats e.1 e.2 st) ?_
      rcases st with ⟨ents, stats⟩
      cases e.1 <;> rcases stats with _ | p <;> rfl

/-- C5: starting with no stats record, after any sequence of add, hit
and miss events the stats read reports exactly the event counts, and
the reported hitRate is the value 100 * H / (H + M) derived from the
two counters (0 when H + M = 0), recomputed on every event rather than
stored independently. -/
theorem stats_counters_additive_and_hit_rate_derived
    (evs : List (StatsAction × Nat)) (st : Store) (nowR : Nat)
    (h : st.stats = none) :
    (statsHandler nowR (applyEvents evs st)).1.totalCached = countAdds evs ∧
    (statsHandler nowR (applyEvents evs st)).1.cacheHits = countHits evs ∧
    (statsHandler nowR (applyEvents evs st)).1.cacheMisses = countMisses evs ∧
    (statsHandler nowR (applyEvents evs st)).1.hitRate =
      (if countHits evs + countMisses evs = 0 then 0
       else 100 * (countHits evs : ℚ) /
         ((countHits evs : ℚ) + (countMisses evs : ℚ))) := by
  have htot := totalOf_applyEvents evs st
  have hhit := hitsOf_applyEvents evs st
  have hmiss := missesOf_applyEvents evs st
  rw [show totalOf st = 0 by rw [totalOf, h], Nat.zero_add] at htot
  rw [show hitsOf st = 0 by rw [hitsOf, h], Nat.zero_add] at hhit
  rw [show missesOf st = 0 by rw [missesOf, h], Nat.zero_add] at hmiss
  cases hf : (applyEvents evs st).stats with
  | none =>
      have hnil : evs = [] := by
        cases evs with
        | nil => rfl
        | cons e rest =>
            exfalso
            have hs : (applyEvents (e :: rest) st).stats.isSome := by
              rw [applyEvents_cons]
              refine applyEvents_stats_isSome rest (updateCacheStats e.1 e.2 st) ?_
              rcases st with ⟨ents, stats⟩
              cases e.1 <;> rcases stats with _ | p <;> rfl
            rw [hf] at hs
            exact Bool.noConfusion hs
      subst hnil
      rw [applyEvents_nil] at hf ⊢
      simp [statsHandler, hf, defaultStats, countAdds, countHits, countMisses]
  | some p =>
      rcases p with ⟨s, t⟩
      have hhandler : (statsHandler nowR (applyEvents evs st)).1 = s := by
        simp [statsHandler, hf]
      simp only [totalOf, hf] at htot
      simp only [hitsOf, hf] at hhit
      simp only [missesOf, hf] at hmiss
      have hcons : s.hitRate = computeHitRate s.cacheHits s.cacheMisses :=
        applyEvents_consistent evs st
          (fun s' t' h' => absurd (h ▸ h') (Option.noConfusion)) s t hf
      refine ⟨hhandler ▸ htot, hhandler ▸ hhit, hhandler ▸ hmiss, ?_⟩
      rw [hhandler, hcons, hhit, hmiss, computeHitRate_eq]
      rcases Nat.eq_zero_or_pos (countHits evs + countMisses evs) with hz | hp
      · rw [if_pos hz, if_pos hz]
      · rw [if_neg (Nat.pos_iff_ne_zero.mp hp), if_neg (Nat.pos_iff_ne_zero.mp hp)]
        ring

/-- Witness for C5: one add, two hits, one miss, starting from the
empty store. -/
theorem stats_counters_additive_and_hit_rate_derived_witness :
    (statsHandler 9 (applyEvents
        [(StatsAction.add, 1), (StatsAction.hit, 2), (StatsAction.miss, 3),
         (StatsAction.hit, 4)] emptyStore)).1.totalCached =
      countAdds [(StatsAction.add, 1), (StatsAction.hit, 2), (StatsAction.miss, 3),
         (StatsAction.hit, 4)] ∧
    (statsHandler 9 (applyEvents
        [(StatsAction.add, 1), (StatsAction.hit, 2), (StatsAction.miss, 3),
         (StatsAction.hit, 4)] emptyStore)).1.cacheHits =
      countHits [(StatsAction.add, 1), (StatsAction.hit, 2), (StatsAction.miss, 3),
         (StatsAction.hit, 4)] ∧
    (statsHandler 9 (applyEvents
        [(StatsAction.add, 1), (StatsAction.hit, 2), (StatsAction.miss, 3),
         (StatsAction.hit, 4)] emptyStore)).1.cacheMisses =
      countMisses [(StatsAction.add, 1), (StatsAction.hit, 2), (StatsAction.miss, 3),
         (StatsAction.hit, 4)] ∧
    (statsHandler 9 (applyEvents
        [(StatsAction.add, 1), (StatsAction.hit, 2), (StatsAction.miss, 3),
         (StatsAction.hit, 4)] emptyStore)).1.hitRate =
      (if countHits [(StatsAction.add, 1), (StatsAction.hit, 2), (StatsAction.miss, 3),
         (StatsAction.hit, 4)] +
          countMisses [(StatsAction.add, 1), (StatsAction.hit, 2), (StatsAction.miss, 3),
         (StatsAction.hit, 4)] = 0 then 0
       else 100 * (countHits [(StatsAction.add, 1), (StatsAction.hit, 2),
           (StatsAction.miss, 3), (StatsAction.hit, 4)] : ℚ) /
         ((countHits [(StatsAction.add, 1), (StatsAction.hit, 2), (StatsAction.miss, 3),
           (StatsAction.hit, 4)] : ℚ) +
          (countMisses [(StatsAction.add, 1), (StatsAction.hit, 2), (StatsAction.miss, 3),
           (StatsAction.hit, 4)] : ℚ))) :=
  stats_counters_additive_and_hit_rate_derived
    [(StatsAction.add, 1), (StatsAction.hit, 2), (StatsAction.miss, 3),
     (StatsAction.hit, 4)] emptyStore 9 rfl

/-! Find-similar lemmas. -/

instance : IsTotal SimilarMatch simOrder :=
  ⟨fun a b => le_total b.similarity a.similarity⟩

instance : IsTrans SimilarMatch simOrder :=
  ⟨fun _ _ _ hab hbc => le_trans hbc hab⟩

/-- C4: whenever the find-similar handler answers a match list, every
match reaches the requested threshold and the list is sorted by
descending similarity; and omitting the threshold is the same call with
threshold 0.7. -/
theorem similar_matches_reach_threshold_and_sorted_descending
    (st : Store) (q : String) (t : ℚ) (f : Bool) (ms : List SimilarMatch)
    (h : similarHandler q (some t) st = SimilarResult.ok f ms) :
    (∀ mt ∈ ms, t ≤ mt.similarity) ∧
    List.Sorted (fun a b => b.similarity ≤ a.similarity) ms ∧
    (∀ (q' : String) (st' : Store),
      similarHandler q' none st' = similarHandler q' (some ((7 : ℚ) / 10)) st') := by
  by_cases hq : q = ""
  · rw [similarHandler, if_pos hq] at h
    exact absurd h (by simp)
  · rw [similarHandler, if_neg hq] at h
    simp only [SimilarResult.ok.injEq] at h
    rw [← h.2]
    refine ⟨?_, List.sorted_insertionSort simOrder _, fun q' st' => rfl⟩
    intro mt hmt
    rw [List.mem_insertionSort] at hmt
    rw [List.mem_filterMap] at hmt
    obtain ⟨p, _, hp⟩ := hmt
    by_cases hle :
        (some t).getD ((7 : ℚ) / 10) ≤ calculateSimilarity q p.2.data.query
    · rw [if_pos hle] at hp
      injection hp with hp2
      subst hp2
      exact hle
    · rw [if_neg hle] at hp
      exact absurd hp (by simp)

/-- Witness for C4: a store holding one entry whose query matches the
candidate exactly, searched with threshold one half. -/
theorem similar_matches_reach_threshold_and_sorted_descending_witness :
    (∀ mt ∈ [(⟨1, "yo", "a b", ⟨5, 0, 2, "gemini-2.5-flash", []⟩, 1⟩ : SimilarMatch)],
      mkRat 1 2 ≤ mt.similarity) ∧
    List.Sorted (fun a b : SimilarMatch => b.similarity ≤ a.similarity)
      [(⟨1, "yo", "a b", ⟨5, 0, 2, "gemini-2.5-flash", []⟩, 1⟩ : SimilarMatch)] ∧
    (∀ (q' : String) (st' : Store),
      similarHandler q' none st' = similarHandler q' (some ((7 : ℚ) / 10)) st') :=
  similar_matches_reach_threshold_and_sorted_descending
    (putHandler (fun s => s) 5 "a b" "yo" ⟨none, none, none, none, []⟩
      emptyStore).2
    "a b" (mkRat 1 2) true
    [⟨1, "yo", "a b", ⟨5, 0, 2, "gemini-2.5-flash", []⟩, 1⟩] (by decide)

/-! Tokenizer lemmas. -/

theorem consHead_ne_nil (c : Char) (ls : List (List Char)) : consHead c ls ≠ [] := by
  cases ls <;> simp [consHead]

theorem jsSplitWS_ne_nil (l : List Char) : jsSplitWS l ≠ [] := by
  induction l with
  | nil => simp [jsSplitWS]
  | cons c t ih =>
      cases t with
      | nil =>
          rw [jsSplitWS]
          split <;> simp
      | cons d cs =>
          rw [jsSplitWS]
          by_cases hc : isJsSpace c = true
          · rw [if_pos hc]
            by_cases hd : isJsSpace d = true
            · rw [if_pos hd]
              exact ih
            · rw [if_neg hd]
              simp
          · rw [if_neg hc]
            exact consHead_ne_nil c _

theorem tokenList_ne_nil (q : String) : tokenList q ≠ [] := by
  rw [tokenList, Ne, List.map_eq_nil_iff]
  exact jsSplitWS_ne_nil _

theorem tokens_nonempty (q : String) : (tokens q).Nonempty :=
  (List.toFinset_nonempty_iff _).mpr (tokenList_ne_nil q)

/-- C10: the similarity computation is total with its result between 0
and 1 and symmetric in its arguments, because splitting any string on
whitespace yields at least one token, so the union of the token sets is
never empty and the division never sees a zero denominator. -/
theorem similarity_total_bounded_symmetric (q1 q2 : String) :
    (tokens q1).Nonempty ∧
    (tokens q1 ∪ tokens q2).Nonempty ∧
    0 ≤ calculateSimilarity q1 q2 ∧ calculateSimilarity q1 q2 ≤ 1 ∧
    calculateSimilarity q1 q2 = calculateSimilarity q2 q1 := by
  have h1 := tokens_nonempty q1
  have hu : (tokens q1 ∪ tokens q2).Nonempty :=
    Finset.Nonempty.mono Finset.subset_union_left h1
  have hcard : 0 < ((tokens q1 ∪ tokens q2).card : ℚ) := by
    rw [show ((0 : ℚ) = ((0 : ℕ) : ℚ)) from rfl, Nat.cast_lt]
    exact Finset.card_pos.mpr hu
  refine ⟨h1, hu, ?_, ?_, ?_⟩
  · rw [calculateSimilarity, natFrac_eq_div]
    exact div_nonneg (Nat.cast_nonneg _) (Nat.cast_nonneg _)
  · rw [calculateSimilarity, natFrac_eq_div]
    exact (div_le_one hcard).mpr
      (Nat.cast_le.mpr (Finset.card_le_card
        (Finset.inter_subset_left.trans Finset.subset_union_left)))
  · rw [calculateSimilarity, calculateSimilarity, Finset.inter_comm,
      Finset.union_comm]

/-- Counterexample to C2 as stated: on the pair of empty strings, where
the spec expects the empty-token-sets guard to answer 0, the source
answers 1 (a full match), because splitting the empty string yields the
singleton list holding the empty string, never an empty token set. -/
theorem similarity_empty_pair_not_zero_counterexample :
    calculateSimilarity "" "" ≠ 0 ∧ calculateSimilarity "" "" = 1 := by
  exact ⟨by decide, by decide⟩

/-- Every whitespace character is fixed by the lowercase map. -/
theorem lowerChar_of_space (c : Char) (h : isJsSpace c = true) :
    lowerChar c = c := by
  simp only [isJsSpace, Bool.or_eq_true, Bool.and_eq_true, decide_eq_true_eq,
    beq_iff_eq] at h
  rw [lowerChar, if_neg]
  simp only [Bool.and_eq_true, decide_eq_true_eq, not_and]
  omega

theorem jsToLower_of_all_space (l : List Char)
    (h : ∀ c ∈ l, isJsSpace c = true) : jsToLower l = l := by
  induction l with
  | nil => rfl
  | cons c t ih =>
      rw [jsToLower, List.map_cons,
        lowerChar_of_space c (h c (List.mem_cons_self c t))]
      rw [jsToLower] at ih
      rw [ih (fun d hd => h d (List.mem_cons_of_mem c hd))]

theorem jsSplitWS_of_all_space (l : List Char)
    (h : ∀ c ∈ l, isJsSpace c = true) : ∀ fr ∈ jsSplitWS l, fr = [] := by
  induction l with
  | nil =>
      intro fr hfr
      simp [jsSplitWS] at hfr
      exact hfr
  | cons c t ih =>
      cases t with
      | nil =>
          intro fr hfr
          rw [jsSplitWS, if_pos (h c (List.mem_cons_self c []))] at hfr
          simp only [List.mem_cons, List.not_mem_nil, or_false] at hfr
          exact hfr.elim id id
      | cons d cs =>
          intro fr hfr
          rw [jsSplitWS, if_pos (h c (List.mem_cons_self c _)),
            if_pos (h d (List.mem_cons_of_mem c (List.mem_cons_self d cs)))] at hfr
          exact ih (fun e he => h e (List.mem_cons_of_mem c he)) fr hfr

theorem tokens_of_all_space (q : String)
    (h : ∀ c ∈ q.data, isJsSpace c = true) : tokens q = {""} := by
  have hlower : jsToLower q.data = q.data := jsToLower_of_all_space q.data h
  have hall : ∀ x ∈ tokenList q, x = "" := by
    intro x hx
    rw [tokenList, hlower, List.mem_map] at hx
    obtain ⟨fr, hfr, hmk⟩ := hx
    rw [jsSplitWS_of_all_space q.data h fr hfr] at hmk
    exact hmk.symm
  apply Finset.ext
  intro a
  simp only [tokens, List.mem_toFinset, Finset.mem_singleton]
  constructor
  · exact fun ha => hall a ha
  · intro ha
    obtain ⟨y, hy⟩ := List.exists_mem_of_ne_nil (tokenList q) (tokenList_ne_nil q)
    rw [ha, ← hall y hy]
    exact hy

/-- C2 (amended): on a pair of empty or whitespace-only queries, where
the spec expects a defined result of 0, the similarity is 1: both token
sets are the singleton of the empty string, so intersection and union
both have size one; no division by zero occurs. -/
theorem similarity_whitespace_only_pair_is_one (q1 q2 : String)
    (h1 : ∀ c ∈ q1.data, isJsSpace c = true)
    (h2 : ∀ c ∈ q2.data, isJsSpace c = true) :
    calculateSimilarity q1 q2 = 1 := by
  rw [calculateSimilarity, tokens_of_all_space q1 h1, tokens_of_all_space q2 h2]
  decide

/-- Witness for the amended C2: the empty string against a blank-and-tab
string. -/
theorem similarity_whitespace_only_pair_is_one_witness :
    calculateSimilarity "" " \t " = 1 :=
  similarity_whitespace_only_pair_is_one "" " \t " (by decide) (by decide)

/-! Normalizer lemmas. -/

theorem char_toNat_ofNat (n : Nat) (h : n < 55296) : (Char.ofNat n).toNat = n := by
  rw [Char.ofNat, dif_pos (Or.inl h)]
  simp [Char.ofNatAux, Char.toNat, UInt32.ofNat', UInt32.toNat, BitVec.ofNatLt]

theorem lowerChar_not_upper (c : Char) :
    ¬(65 ≤ (lowerChar c).toNat ∧ (lowerChar c).toNat ≤ 90) := by
  rw [lowerChar]
  by_cases h : (65 ≤ c.toNat && c.toNat ≤ 90) = true
  · rw [if_pos h]
    simp only [Bool.and_eq_true, decide_eq_true_eq] at h
    rw [char_toNat_ofNat (c.toNat + 32) (by omega)]
    omega
  · rw [if_neg h]
    simp only [Bool.and_eq_true, decide_eq_true_eq, not_and] at h ⊢
    omega

theorem lowerChar_of_not_upper (c : Char)
    (h : ¬(65 ≤ c.toNat ∧ c.toNat ≤ 90)) : lowerChar c = c := by
  rw [lowerChar, if_neg]
  simp only [Bool.and_eq_true, decide_eq_true_eq, not_and]
  omega

theorem mem_dropSpaces (a : Char) (l : List Char) (h : a ∈ dropSpaces l) :
    a ∈ l := by
  induction l with
  | nil => exact absurd h (List.not_mem_nil a)
  | cons c t ih =>
      rw [dropSpaces] at h
      by_cases hc : isJsSpace c = true
      · rw [if_pos hc] at h
        exact List.mem_cons_of_mem c (ih h)
      · rw [if_neg hc] at h
        exact h

theorem mem_jsTrimL (a : Char) (l : List Char) (h : a ∈ jsTrimL l) : a ∈ l := by
  rw [jsTrimL] at h
  rw [List.mem_reverse] at h
  have h2 := mem_dropSpaces a _ h
  rw [List.mem_reverse] at h2
  exact mem_dropSpaces a l h2

theorem mem_collapseWS (a : Char) (l : List Char) (h : a ∈ collapseWS l) :
    a = ' ' ∨ a ∈ l := by
  induction l with
  | nil => exact absurd h (List.not_mem_nil a)
  | cons c t ih =>
      cases t with
      | nil =>
          rw [collapseWS] at h
          by_cases hc : isJsSpace c = true
          · rw [if_pos hc] at h
            left
            simpa using h
          · rw [if_neg hc] at h
            right
            simpa using h
      | cons d cs =>
          rw [collapseWS] at h
          by_cases hcd : (isJsSpace c && isJsSpace d) = true
          · rw [if_pos hcd] at h
            rcases ih h with h' | h'
            · exact Or.inl h'
            · exact Or.inr (List.mem_cons_of_mem c h')
          · rw [if_neg hcd] at h
            rcases List.mem_cons.mp h with h' | h'
            · by_cases hc : isJsSpace c = true
              · rw [if_pos hc] at h'
                exact Or.inl h'
              · rw [if_neg hc] at h'
                exact Or.inr (h' ▸ List.mem_cons_self c _)
            · rcases ih h' with h'' | h''
              · exact Or.inl h''
              · exact Or.inr (List.mem_cons_of_mem c h'')

theorem collapseWS_cons_of_not_space (d : Char) (cs : List Char)
    (hd : isJsSpace d = false) : collapseWS (d :: cs) = d :: collapseWS cs := by
  cases cs with
  | nil => simp [collapseWS, hd]
  | cons e cs' => simp [collapseWS, hd]

theorem collapseWS_space_is_blank (l : List Char) :
    ∀ a ∈ collapseWS l, isJsSpace a = true → a = ' ' := by
  induction l with
  | nil => intro a ha; exact absurd ha (List.not_mem_nil a)
  | cons c t ih =>
      cases t with
      | nil =>
          intro a ha hsp
          rw [collapseWS] at ha
          by_cases hc : isJsSpace c = true
          · rw [if_pos hc] at ha
            simpa using ha
          · rw [if_neg hc] at ha
            rw [List.mem_singleton] at ha
            rw [ha] at hsp
            exact absurd hsp (by rw [Bool.not_eq_true, ← Bool.not_eq_true] at hc ⊢; exact hc)
      | cons d cs =>
          intro a ha hsp
          rw [collapseWS] at ha
          by_cases hcd : (isJsSpace c && isJsSpace d) = true
          · rw [if_pos hcd] at ha
            exact ih a ha hsp
          · rw [if_neg hcd] at ha
            rcases List.mem_cons.mp ha with h' | h'
            · by_cases hc : isJsSpace c = true
              · rw [if_pos hc] at h'
                exact h'
              · rw [if_neg hc] at h'
                rw [h'] at hsp
                exact absurd hsp (by simpa using hc)
            · exact ih a h' hsp

/-- No two adjacent characters are both whitespace. -/
def noTwoSpaces (l : List Char) : Prop :=
  List.Chain' (fun a b => isJsSpace a = false ∨ isJsSpace b = false) l

theorem noTwoSpaces_nil : noTwoSpaces [] := List.chain'_nil

theorem noTwoSpaces_tail (c : Char) (t : List Char) (h : noTwoSpaces (c :: t)) :
    noTwoSpaces t := (List.chain'_cons'.mp h).2

theorem noTwoSpaces_collapseWS (l : List Char) : noTwoSpaces (collapseWS l) := by
  induction l with
  | nil => exact noTwoSpaces_nil
  | cons c t ih =>
      cases t with
      | nil =>
          rw [collapseWS]
          split <;> exact List.chain'_singleton _
      | cons d cs =>
          rw [collapseWS]
          by_cases hcd : (isJsSpace c && isJsSpace d) = true
          · rw [if_pos hcd]
            exact ih
          · rw [if_neg hcd]
            rw [Bool.and_eq_true, not_and] at hcd
            refine List.chain'_cons'.mpr ⟨?_, ih⟩
            intro y hy
            by_cases hc : isJsSpace c = true
            · rw [if_pos hc]
              have hd : isJsSpace d = false := by
                rcases Bool.eq_false_or_eq_true (isJsSpace d) with h' | h'
                · exact absurd h' (hcd hc)
                · exact h'
              rw [collapseWS_cons_of_not_space d cs hd] at hy
              rw [Option.mem_def, List.head?_cons, Option.some.injEq] at hy
              right
              rw [← hy]
              exact hd
            · rw [if_neg hc]
              left
              simpa using hc

theorem noTwoSpaces_dropSpaces (l : List Char) (h : noTwoSpaces l) :
    noTwoSpaces (dropSpaces l) := by
  induction l with
  | nil => exact h
  | cons c t ih =>
      rw [dropSpaces]
      by_cases hc : isJsSpace c = true
      · rw [if_pos hc]
        exact ih (noTwoSpaces_tail c t h)
      · rw [if_neg hc]
        exact h

theorem noTwoSpaces_reverse (l : List Char) (h : noTwoSpaces l) :
    noTwoSpaces l.reverse := by
  rw [noTwoSpaces, List.chain'_reverse]
  exact h.imp (fun a b hab => hab.symm)

theorem noTwoSpaces_jsTrimL (l : List Char) (h : noTwoSpaces l) :
    noTwoSpaces (jsTrimL l) := by
  rw [jsTrimL]
  exact noTwoSpaces_reverse _
    (noTwoSpaces_dropSpaces _ (noTwoSpaces_reverse _ (noTwoSpaces_dropSpaces l h)))

theorem collapseWS_eq_self (l : List Char)
    (h1 : ∀ a ∈ l, isJsSpace a = true → a = ' ')
    (h2 : noTwoSpaces l) : collapseWS l = l := by
  induction l with
  | nil => rfl
  | cons c t ih =>
      cases t with
      | nil =>
          rw [collapseWS]
          by_cases hc : isJsSpace c = true
          · rw [if_pos hc, h1 c (List.mem_cons_self c []) hc]
          · rw [if_neg hc]
      | cons d cs =>
          have hcd : ¬(isJsSpace c && isJsSpace d) = true := by
            have hR := (List.chain'_cons'.mp h2).1 d
              (by rw [List.head?_cons, Option.mem_def])
            rcases hR with h' | h' <;> simp [h']
          rw [collapseWS, if_neg hcd]
          have htail : collapseWS (d :: cs) = d :: cs :=
            ih (fun a ha hsp => h1 a (List.mem_cons_of_mem c ha) hsp)
              (noTwoSpaces_tail c _ h2)
          rw [htail]
          by_cases hc : isJsSpace c = true
          · rw [if_pos hc, h1 c (List.mem_cons_self c _) hc]
          · rw [if_neg hc]

theorem normalizeL_not_upper (l : List Char) :
    ∀ a ∈ normalizeL l, ¬(65 ≤ a.toNat ∧ a.toNat ≤ 90) := by
  intro a ha
  rcases mem_collapseWS a _ ha with h' | h'
  · rw [h']
    intro hcontra
    have : (' ').toNat = 32 := rfl
    omega
  · have h2 := mem_jsTrimL a _ (List.mem_of_mem_filter h')
    rw [jsToLower, List.mem_map] at h2
    obtain ⟨b, _, hb⟩ := h2
    rw [← hb]
    exact lowerChar_not_upper b

theorem jsToLower_eq_self_of_not_upper (l : List Char)
    (h : ∀ a ∈ l, ¬(65 ≤ a.toNat ∧ a.toNat ≤ 90)) : jsToLower l = l := by
  induction l with
  | nil => rfl
  | cons c t ih =>
      rw [jsToLower, List.map_cons,
        lowerChar_of_not_upper c (h c (List.mem_cons_self c t))]
      rw [jsToLower] at ih
      rw [ih (fun a ha => h a (List.mem_cons_of_mem c ha))]

theorem normalizeL_word_or_space (l : List Char) :
    ∀ a ∈ normalizeL l, (isWordChar a || isJsSpace a) = true := by
  intro a ha
  rcases mem_collapseWS a _ ha with h' | h'
  · rw [h']
    decide
  · exact @List.of_mem_filter Char (fun c => isWordChar c || isJsSpace c) a
      (jsTrimL (jsToLower l)) h'

theorem normalizeL_normalizeL (l : List Char) :
    normalizeL (normalizeL l) = jsTrimL (normalizeL l) := by
  have hlow : jsToLower (normalizeL l) = normalizeL l :=
    jsToLower_eq_self_of_not_upper _ (normalizeL_not_upper l)
  have hstrip : stripNonWord (jsTrimL (normalizeL l)) = jsTrimL (normalizeL l) :=
    List.filter_eq_self.mpr
      (fun a ha => normalizeL_word_or_space l a (mem_jsTrimL a _ ha))
  have hcoll : collapseWS (jsTrimL (normalizeL l)) = jsTrimL (normalizeL l) :=
    collapseWS_eq_self _
      (fun a ha hsp => collapseWS_space_is_blank _ a (mem_jsTrimL a _ ha) hsp)
      (noTwoSpaces_jsTrimL _ (noTwoSpaces_collapseWS _))
  calc normalizeL (normalizeL l)
      = collapseWS (stripNonWord (jsTrimL (jsToLower (normalizeL l)))) := rfl
    _ = jsTrimL (normalizeL l) := by rw [hlow, hstrip, hcoll]

/-- C3 (amended): the normalizer is not idempotent in general; what
holds is that renormalizing is exactly trimming the normalized string,
so normalization is idempotent precisely when its output carries no
leading or trailing whitespace (stripping punctuation can expose edge
whitespace after the trim step already ran, and the collapse step turns
it into a kept single space). -/
theorem normalize_twice_is_trim_of_normalize (q : String) :
    normalizeQuery (normalizeQuery q) = jsTrim (normalizeQuery q) :=
  congrArg String.mk (normalizeL_normalizeL q.data)

/-- Counterexample to C3 as stated: stripping the punctuation of
"! a" exposes a leading space that trim (already performed) no longer
removes, so normalize("! a") is " a" while renormalizing gives "a". -/
theorem normalize_not_idempotent_counterexample :
    normalizeQuery (normalizeQuery "! a") ≠ normalizeQuery "! a" := by
  decide

end NasaCache
